import Mathlib

/- Verification of hancho.py (a small build system, src/hancho.py) against its
   natural-language specification.

   Modelling conventions of this shallow embedding:
   * Python strings (paths, messages, macro text) are lists of characters (`PStr`);
     Python string operations (startswith, removeprefix, split, slicing) are
     translated to the corresponding list operations.
   * Python exceptions are the inductive `PyError`; fallible code returns `Except`.
   * mtimes and counters are natural numbers.
   * The file-system state seen through os.stat / open is a record of functions
     (`FS`); a missing file has mtime `none`.
   All definitions are translated from src/hancho.py; line numbers are cited in
   the doc comments. -/

abbrev PStr := List Char

/-- Python exception values raised by the modelled code, tagged by their Python
class. `nameErrorUndefined n` is the NameError produced by evaluating an unbound
identifier `n` (message: name n is not defined). -/
inductive PyError where
  | fileNotFoundError (p : PStr)
  | valueError (msg : PStr)
  | nameError (msg : PStr)
  | nameErrorUndefined (name : PStr)
  | attributeError (name : PStr)
  | syntaxError (src : PStr)
  | recursionError (mac : PStr)
  | cancelledError
  deriving DecidableEq

instance {ε α : Type} [DecidableEq ε] [DecidableEq α] : DecidableEq (Except ε α) :=
  fun a b =>
    match a, b with
    | .ok x, .ok y => decidable_of_iff (x = y) ⟨congrArg _, Except.ok.inj⟩
    | .error x, .error y => decidable_of_iff (x = y) ⟨congrArg _, Except.error.inj⟩
    | .ok _, .error _ => isFalse fun h => Except.noConfusion h
    | .error _, .ok _ => isFalse fun h => Except.noConfusion h

/-- Whether a path string is absolute, i.e. starts with a slash (the POSIX
os.path semantics used throughout hancho). -/
def isAbsPath : PStr → Bool
  | '/' :: _ => true
  | _ => false

/-- Whether a path string ends with a slash. -/
def endsWithSlash (p : PStr) : Bool := p.getLast? = some '/'

/-- Model of POSIX os.path.join for two components: an absolute second component
replaces the first; otherwise the components are joined, inserting a slash
unless the first is empty or already ends with one. -/
def pyPathJoin (a b : PStr) : PStr :=
  if isAbsPath b then b
  else if a = [] then b
  else if endsWithSlash a then a ++ b
  else a ++ '/' :: b

/-- Model of Python str.removeprefix: drop `pre` from the front of `s` when it
is a prefix, otherwise return `s` unchanged. -/
def pyStripPre (s pre : PStr) : PStr :=
  if pre.isPrefixOf s then s.drop pre.length else s

/-- Split a path string on slashes (used only to state the no-dot-dot-segment
hypothesis of the rel_path/join_path round-trip claim). -/
def splitSlash : PStr → List PStr
  | [] => [[]]
  | c :: rest =>
    let r := splitSlash rest
    if c = '/' then [] :: r
    else
      match r with
      | [] => [[c]]
      | h :: t => (c :: h) :: t

/-- Whether a path contains a dot-dot segment. -/
def hasDotDot (p : PStr) : Bool := (splitSlash p).contains ['.', '.']

/-- Scalar-or-(arbitrarily nested)-list path values, the argument shape accepted
by the hancho path helpers (leaves must be strings for os.path.join to accept
them). -/
inductive PathVal where
  | str (s : PStr)
  | list (l : List PathVal)

mutual

/-- Model of hancho _flatten (src/hancho.py lines 71-74) on path values: the
depth-first list of leaves. -/
def flattenP : PathVal → List PStr
  | .str s => [s]
  | .list l => flattenPL l

/-- List clause of `flattenP` (the comprehension in _flatten line 73). -/
def flattenPL : List PathVal → List PStr
  | [] => []
  | v :: rest => flattenP v ++ flattenPL rest

end

/-- The final step of the two-argument case of _join_path (src/hancho.py
line 108): `result[0] if len(result) == 1 else result`. -/
def collapseJoin (l : List PStr) : PathVal :=
  match l with
  | [x] => .str x
  | _ => .list (l.map .str)

/-- The two-argument case of _join_path (src/hancho.py lines 104-108): the
Cartesian product of the flattened arguments joined pairwise, collapsed to a
scalar when it has exactly one element. -/
def join2 (a b : PathVal) : PathVal :=
  collapseJoin ((flattenP a).flatMap (fun x => (flattenP b).map (fun y => pyPathJoin x y)))

/-- Model of hancho _join_path (src/hancho.py lines 97-110). Note the
one-argument case returns `list(args)`, the singleton list holding the argument
unchanged. Three or more arguments fold from the right through the two-argument
case. -/
def join_path : List PathVal → PathVal
  | [] => .str []
  | [a] => .list [a]
  | [a, b] => join2 a b
  | a :: rest => join2 a (join_path rest)

/-- Model of hancho _rel_path (src/hancho.py lines 86-94) on a single path:
empty string when the paths are equal, else strip the leading `path2 + "/"` by
pure string manipulation. -/
def rel_path (path1 path2 : PStr) : PStr :=
  if path1 = path2 then [] else pyStripPre path1 (path2 ++ ['/'])

mutual

/-- Model of hancho _rel_path including its elementwise list case
(src/hancho.py lines 87-88). -/
def relPathVal : PathVal → PStr → PathVal
  | .str s, base => .str (rel_path s base)
  | .list l, base => .list (relPathValL l base)

/-- List clause of `relPathVal`. -/
def relPathValL : List PathVal → PStr → List PathVal
  | [], _ => []
  | v :: rest, base => relPathVal v base :: relPathValL rest base

end

/-- Right-nested Cartesian product of lists of path strings under pyPathJoin,
the reference function the n-argument behaviour of _join_path is compared
against. -/
def cartJoin : List (List PStr) → List PStr
  | [] => []
  | [xs] => xs
  | xs :: rest => xs.flatMap (fun x => (cartJoin rest).map (fun y => pyPathJoin x y))

/-- Model of the duplicate-output registration loop of Task.task_init
(src/hancho.py lines 665-669): walk the task's abs_build_files; a file already
in the global all_build_files set raises NameError("Multiple rules build ...!"),
otherwise it is added. The loop returns whether it raised together with the
resulting set contents; files added before a failure stay registered, matching
the source, since the exception escapes after the partial mutation. The set is
modelled as a duplicate-free list. -/
def registerBuildFiles (seen : List PStr) : List PStr → Except PyError Unit × List PStr
  | [] => (.ok (), seen)
  | f :: rest =>
    if f ∈ seen then
      (.error (.nameError (("Multiple rules build ").toList ++ f ++ ['!'])), seen)
    else registerBuildFiles (f :: seen) rest

/-- Sequential task_init registration across tasks: each task registers its
outputs; a task whose registration raises leaves its partial registrations
behind (its run_async catches the exception) and the build continues. -/
def processTaskOutputs (seen : List PStr) : List (List PStr) → List PStr
  | [] => seen
  | t :: ts => processTaskOutputs (registerBuildFiles seen t).2 ts

/-- Outcome of Task.run_commands as seen by the job pool: the final
jobs_available value on the normal and the raising path, or blocked forever
(wait_for never satisfied when no other task can release). -/
inductive RunJobsOutcome where
  | ok (jobs_available : Nat)
  | err (e : PyError) (jobs_available : Nat)
  | blocked
  deriving DecidableEq

/-- Model of the job accounting through Task.run_commands (src/hancho.py lines
738-765): inside the try, App.acquire_jobs (1060-1069) raises ValueError before
touching the pool when count > Config.jobs, otherwise waits until
jobs_available ≥ count and subtracts count; the finally clause always runs
App.release_jobs (1078-1084), which adds count back — even when acquire_jobs
raised without acquiring. cmdFails models a command of the loop body raising.
The model runs a single task with no concurrent releases, so an unsatisfiable
wait blocks forever and the finally never runs. -/
def run_commands_jobs (cfgJobs count avail : Nat) (cmdFails : Bool) : RunJobsOutcome :=
  if count > cfgJobs then
    .err (.valueError (("Nedd " ++ toString count ++ " jobs, but pool is "
      ++ toString cfgJobs ++ ".").toList)) (avail + count)
  else if avail < count then .blocked
  else
    let afterAcquire := avail - count
    if cmdFails then
      .err (.valueError ("Command exited with nonzero return code".toList))
        (afterAcquire + count)
    else .ok (afterAcquire + count)

/-- Values held in hancho config fields (spec 3.1): scalars, strings (possibly
containing macros), nested lists, and handles for Config objects and callbacks
(their identity is all the modelled code inspects). `null` is Python None. -/
inductive MValue where
  | null
  | bool (b : Bool)
  | int (n : Int)
  | str (s : PStr)
  | list (l : List MValue)
  | config (ref : Nat)
  | callback (ref : Nat)

/-- A Config's attribute map: Python setattr prepends, so the first match wins
(Config.merge, src/hancho.py lines 214-216, with class attributes behind). -/
def lookupCfg (cfg : List (PStr × MValue)) (key : PStr) : Option MValue :=
  match cfg with
  | [] => none
  | (k, v) :: rest => if k = key then some v else lookupCfg rest key

/-- Model of Config.merge (src/hancho.py lines 214-216): setattr every key of
the update onto the config; later setattr shadows earlier bindings. -/
def mergeConfig (cfg updates : List (PStr × MValue)) : List (PStr × MValue) :=
  updates.foldl (fun acc kv => kv :: acc) cfg

/-- The defaults Config built at the top of Task.init (src/hancho.py lines
537-558); root_path and base_path come from the process environment. The
crucial default for the missing-command claim is command = None. -/
def taskDefaults (root_path base_path : PStr) : List (PStr × MValue) :=
  [ ("desc".toList, .str "{source_files} -> {build_files}".toList),
    ("root_path".toList, .str root_path),
    ("repo_path".toList, .str root_path),
    ("base_path".toList, .str base_path),
    ("command".toList, .null),
    ("command_path".toList, .str "{default_command_path}".toList),
    ("command_files".toList, .list []),
    ("source_path".toList, .str "{default_source_path}".toList),
    ("source_files".toList, .list []),
    ("build_tag".toList, .str []),
    ("build_dir".toList, .str "build".toList),
    ("build_path".toList, .str "{default_build_path}".toList),
    ("build_files".toList, .list []),
    ("build_deps".toList, .list []),
    ("other_files".toList, .list []) ]

/-- The merged config Config(defaults, *args, kwargs) of Task.init
(src/hancho.py line 563): defaults first, then each positional argument, then
the keyword arguments, later bindings shadowing earlier ones. -/
def taskMergedConfig (root_path base_path : PStr) (args : List (List (PStr × MValue)))
    (kwargs : List (PStr × MValue)) : List (PStr × MValue) :=
  (args ++ [kwargs]).foldl mergeConfig (mergeConfig [] (taskDefaults root_path base_path))

/-- The Python `self.config.command is None` test of src/hancho.py line 568. -/
def commandIsNone : Option MValue → Bool
  | some .null => true
  | _ => false

/-- The global app state touched by task construction and the run_async
counters (App.init, src/hancho.py lines 828-839). -/
structure AppState where
  tasks_total : Nat
  tasks_pass : Nat
  tasks_fail : Nat
  tasks_skip : Nat
  tasks_cancel : Nat
  task_counter : Nat
  pending_tasks : List (List (PStr × MValue))

/-- Model of Task.init (src/hancho.py lines 531-572): merge the configs; if the
merged command is None, raise ValueError("Task has no command ...") — reaching
neither the tasks_total increment (line 571) nor the pending_tasks append
(line 572), so the app state is returned unchanged; otherwise count the task
and append it. -/
def taskConstruct (st : AppState) (root_path base_path : PStr)
    (args : List (List (PStr × MValue))) (kwargs : List (PStr × MValue)) :
    Except PyError (List (PStr × MValue)) × AppState :=
  let merged := taskMergedConfig root_path base_path args kwargs
  if commandIsNone (lookupCfg merged ("command".toList)) then
    (.error (.valueError ("Task has no command".toList)), st)
  else
    (.ok merged,
      { st with
          tasks_total := st.tasks_total + 1,
          pending_tasks := st.pending_tasks ++ [merged] })

/-- The value a task's asyncio future resolves to, as seen by other tasks:
a real result or the asyncio.CancelledError() sentinel returned by both except
clauses of Task.run_async (src/hancho.py lines 616 and 622). -/
inductive TaskOutcome where
  | value
  | cancelledSentinel
  deriving DecidableEq

/-- The two except clauses of Task.run_async. -/
inductive HandlerKind where
  | failHandler
  | cancelHandler
  deriving DecidableEq

/-- Matcher of the clause `except BaseException`: it matches every Python
exception (CancelledError of asyncio included, since it derives from
BaseException). -/
def isBaseExceptionMatch : PyError → Bool := fun _ => true

/-- Matcher of the clause `except asyncio.CancelledError`: it matches only
CancelledError. -/
def isCancelledMatch : PyError → Bool
  | .cancelledError => true
  | _ => false

/-- The except clauses of Task.run_async in their source order: line 609
`except BaseException` (log, tasks_fail += 1, return CancelledError()), then
line 620 `except asyncio.CancelledError` (tasks_cancel += 1, return the
cancellation). -/
def runAsyncHandlers : List ((PyError → Bool) × HandlerKind) :=
  [(isBaseExceptionMatch, .failHandler), (isCancelledMatch, .cancelHandler)]

/-- Python exception dispatch: the first except clause whose class matches the
raised exception handles it. -/
def firstHandler : List ((PyError → Bool) × HandlerKind) → PyError → Option HandlerKind
  | [], _ => none
  | (p, h) :: rest, e => if p e then some h else firstHandler rest e

/-- One run of Task.run_async (src/hancho.py lines 577-622) at the counter
level. `raised` is the exception escaping the body: none when the task body
succeeded (tasks_pass += 1), some CancelledError when awaiting a dependency
re-raised the Cancelled sentinel (\_await_variant, lines 154-156), some other
error when the task itself failed. An escaping exception is dispatched to the
first matching except clause; both clauses resolve the future to the Cancelled
sentinel. -/
def run_async_counters (st : AppState) (raised : Option PyError) :
    AppState × TaskOutcome :=
  match raised with
  | none => ({ st with tasks_pass := st.tasks_pass + 1 }, .value)
  | some e =>
    match firstHandler runAsyncHandlers e with
    | some .failHandler => ({ st with tasks_fail := st.tasks_fail + 1 }, .cancelledSentinel)
    | some .cancelHandler => ({ st with tasks_cancel := st.tasks_cancel + 1 }, .cancelledSentinel)
    | none => (st, .value)

/-- Model of _await_variant (src/hancho.py lines 152-176) over a task's
dependencies: encountering a dependency future that resolved to the Cancelled
sentinel raises CancelledError (line 155-156). -/
def awaitDeps (deps : List TaskOutcome) : Option PyError :=
  if deps.contains .cancelledSentinel then some .cancelledError else none

/-- Spec scenario 6 (cancellation fan-out): one task whose command fails, then
n downstream tasks each awaiting its future. -/
def cancellationFanout (n : Nat) : AppState :=
  let st0 : AppState := ⟨n + 1, 0, 0, 0, 0, 0, []⟩
  let resA := run_async_counters st0
    (some (.valueError ("Command exited with return code 1".toList)))
  (List.range n).foldl (fun st _ => (run_async_counters st (awaitDeps [resA.2])).1) resA.1

/-- The file-system state visible to needs_rerun: mtime as seen by os.stat
(none = missing file), file contents as seen by open/read, and the list
extracted by json.load(...) at Data.Includes for an MSVC depfile (the JSON
parser is standard-library code, modelled as part of the environment). -/
structure FS where
  mtime : PStr → Option Nat
  contents : PStr → PStr
  msvcIncludes : PStr → List PStr

/-- The expanded fields of a task's action used by needs_rerun (filled by
task_init, src/hancho.py lines 624-674). -/
structure TaskAction where
  abs_command_path : PStr
  abs_source_files : List PStr
  abs_build_files : List PStr
  abs_command_files : List PStr
  abs_build_deps : List PStr
  depformat : PStr

/-- Model of hancho _mtime / os.stat (src/hancho.py lines 134-137): the mtime,
or FileNotFoundError for a missing file. -/
def pyMtime (fs : FS) (f : PStr) : Except PyError Nat :=
  match fs.mtime f with
  | some t => .ok t
  | none => .error (.fileNotFoundError f)

/-- The mtimes of a list of files, left to right, propagating the exception of
the first missing one (the generator consumed by min at src/hancho.py
line 696). -/
def mtimesOf (fs : FS) : List PStr → Except PyError (List Nat)
  | [] => .ok []
  | f :: rest =>
    match pyMtime fs f with
    | .error e => .error e
    | .ok t =>
      match mtimesOf fs rest with
      | .error e => .error e
      | .ok ts => .ok (t :: ts)

/-- Model of os.path.exists. -/
def pathExists (fs : FS) (f : PStr) : Bool := (fs.mtime f).isSome

/-- Whether a file triggers the rebuild test mtime(f) ≥ min_out (false for a
missing file); used to state the staleness hypotheses. -/
def staleCheck (fs : FS) (min_out : Nat) (f : PStr) : Bool :=
  match fs.mtime f with
  | some t => decide (min_out ≤ t)
  | none => false

/-- Python min over a nonempty list of mtimes (src/hancho.py line 696); 0 for
the empty list (unreachable: the caller guards on a nonempty file list). -/
def minList : List Nat → Nat
  | [] => 0
  | m :: rest => rest.foldl min m

/-- min_out as a pure function of the file system: the minimum mtime over the
build files (definitionally what needs_rerun computes when they all exist). -/
def buildMinOut (fs : FS) (files : List PStr) : Nat :=
  minList (files.map (fun f => (fs.mtime f).getD 0))

/-- One of the `for abs_file in ...: if _mtime(abs_file) >= min_out: return`
loops of needs_rerun (src/hancho.py lines 698-708): the first file whose mtime
is at least min_out, FileNotFoundError if a file goes missing first. -/
def firstStale (fs : FS) (min_out : Nat) : List PStr → Except PyError (Option PStr)
  | [] => .ok none
  | f :: rest =>
    match pyMtime fs f with
    | .error e => .error e
    | .ok t => if min_out ≤ t then .ok (some f) else firstStale fs min_out rest

/-- Model of Python str.split() with no arguments (split on whitespace runs,
no empty tokens); accumulator holds the current token reversed. -/
def pySplitWSGo (cur : PStr) : PStr → List PStr
  | [] => if cur = [] then [] else [cur.reverse]
  | c :: rest =>
    if c.isWhitespace then
      if cur = [] then pySplitWSGo [] rest else cur.reverse :: pySplitWSGo [] rest
    else pySplitWSGo (c :: cur) rest

/-- Python depfile.read().split(). -/
def pySplitWS (s : PStr) : List PStr := pySplitWSGo [] s

/-- GCC .d depfile parse (src/hancho.py lines 722-724): whitespace-split, drop
the leading target token, drop lone backslashes. -/
def gccDeplines (content : PStr) : List PStr :=
  ((pySplitWS content).drop 1).filter (fun d => d ≠ ['\\'])

/-- The depfile loop of needs_rerun (src/hancho.py lines 711-732): skip missing
depfiles; parse per depformat — "msvc" via the JSON Data.Includes list, "gcc"
via whitespace tokens; any other depformat reaches
`raise ValueError(f"Invalid depformat {depformat}")` (line 726), whose f-string
references the unbound name `depformat` (the field lives at
self.action.depformat), so what Python actually raises is
NameError (name depformat is not defined). Parsed entries are joined onto
abs_command_path and put through the same mtime-≥-min_out test. -/
def checkDepfiles (fs : FS) (act : TaskAction) (min_out : Nat) :
    List PStr → Except PyError (Option PStr)
  | [] => .ok none
  | df :: rest =>
    if pathExists fs df = false then checkDepfiles fs act min_out rest
    else
      match
        (if act.depformat = "msvc".toList then Except.ok (fs.msvcIncludes df)
         else if act.depformat = "gcc".toList then Except.ok (gccDeplines (fs.contents df))
         else Except.error (.nameErrorUndefined ("depformat".toList))
          : Except PyError (List PStr)) with
      | .error e => .error e
      | .ok deplines =>
        match firstStale fs min_out
            (deplines.map (fun d => pyPathJoin act.abs_command_path d)) with
        | .error e => .error e
        | .ok (some f) => .ok (some f)
        | .ok none => checkDepfiles fs act min_out rest

/-- Model of Task.needs_rerun (src/hancho.py lines 677-736): returns the
rebuild reason (empty string = up to date) or the Python exception that
escaped. The checks run in source order: force, no inputs, no outputs, missing
output, then mtime comparisons against min_out for sources, command files,
loaded modules, and depfile entries. -/
def needs_rerun (fs : FS) (loaded_modules : List PStr) (act : TaskAction) (force : Bool) :
    Except PyError PStr :=
  if force then .ok ("Files forced to rebuild".toList)
  else if act.abs_source_files = [] then
    .ok ("Always rebuild a target with no inputs".toList)
  else if act.abs_build_files = [] then
    .ok ("Always rebuild a target with no outputs".toList)
  else
    match act.abs_build_files.find? (fun f => !pathExists fs f) with
    | some f => .ok (("Rebuilding because missing ").toList ++ f)
    | none =>
      match mtimesOf fs act.abs_build_files with
      | .error e => .error e
      | .ok mtimes =>
        let min_out := minList mtimes
        match firstStale fs min_out act.abs_source_files with
        | .error e => .error e
        | .ok (some f) => .ok (("Rebuilding because changed ").toList ++ f)
        | .ok none =>
          match firstStale fs min_out act.abs_command_files with
          | .error e => .error e
          | .ok (some f) => .ok (("Rebuilding because changed ").toList ++ f)
          | .ok none =>
            match firstStale fs min_out loaded_modules with
            | .error e => .error e
            | .ok (some f) => .ok (("Rebuilding because changed ").toList ++ f)
            | .ok none =>
              match checkDepfiles fs act min_out act.abs_build_deps with
              | .error e => .error e
              | .ok (some f) => .ok (("Rebuilding because changed ").toList ++ f)
              | .ok none => .ok []

/-- Concrete file system for the C2 witness: source and build file with equal
mtimes, exercising the ≥ (not >) comparison. -/
def fsC2 : FS where
  mtime := fun p =>
    if p = "/r/a.c".toList then some 5
    else if p = "/r/out".toList then some 5
    else none
  contents := fun _ => []
  msvcIncludes := fun _ => []

/-- Concrete action for the C2 witness. -/
def actC2 : TaskAction where
  abs_command_path := "/r".toList
  abs_source_files := ["/r/a.c".toList]
  abs_build_files := ["/r/out".toList]
  abs_command_files := []
  abs_build_deps := []
  depformat := "gcc".toList

/-- Concrete file system for C8: an existing depfile /r/out.d next to an
up-to-date build. -/
def fsC8 : FS where
  mtime := fun p =>
    if p = "/r/src.c".toList then some 1
    else if p = "/r/out.o".toList then some 5
    else if p = "/r/out.d".toList then some 1
    else none
  contents := fun _ => []
  msvcIncludes := fun _ => []

/-- Concrete action for C8: depformat "foo", neither gcc nor msvc. -/
def actC8 : TaskAction where
  abs_command_path := "/r".toList
  abs_source_files := ["/r/src.c".toList]
  abs_build_files := ["/r/out.o".toList]
  abs_command_files := []
  abs_build_deps := ["/r/out.d".toList]
  depformat := "foo".toList

/-- The maximum number of recursion levels for macro expansion (src/hancho.py
line 29). -/
def MAX_EXPAND_DEPTH : Nat := 20

/-- Helper for the pure-macro regex: checks that the rest of the string after
the opening brace is brace-free characters, then the closing brace, then the
end of the string — or a single trailing newline, which the dollar anchor of
Python re also accepts (re with no MULTILINE: `$` matches at the end or just
before a trailing newline). -/
def midNoBrace : PStr → Bool
  | [] => false
  | c :: rest =>
    if c = '}' then decide (rest = []) || decide (rest = ['\n'])
    else midNoBrace rest

/-- Model of macro_regex.search (src/hancho.py line 32): whether the string
matches the anchored Python regex for a pure macro. Because of the `$` anchor
semantics this also accepts a string whose match is followed by one trailing
newline. -/
def isMacroStr : PStr → Bool
  | [] => false
  | c :: rest => if c = '{' then midNoBrace rest else false

/-- Model of template_regex.search (src/hancho.py line 35): the leftmost
macro span of a template — the text before it, the span including its braces,
and the text after it. The span starts at the first open brace that is
followed by a close brace and ends at that first close brace. -/
def splitMacroSpan : PStr → Option (PStr × PStr × PStr)
  | [] => none
  | c :: rest =>
    if c = '{' ∧ '}' ∈ rest then
      some ([], '{' :: rest.takeWhile (fun d => d ≠ '}') ++ ['}'],
        (rest.dropWhile (fun d => d ≠ '}')).drop 1)
    else
      (splitMacroSpan rest).map (fun bma => (c :: bma.1, bma.2.1, bma.2.2))

/-- Whether template_regex.search finds a macro span (used by expand's
dispatch, src/hancho.py line 439). -/
def hasMacroSpan (s : PStr) : Bool := (splitMacroSpan s).isSome

/-- Dropping a prefix by predicate never lengthens a list. -/
def dropWhile_length_le (p : Char → Bool) (l : PStr) : (l.dropWhile p).length ≤ l.length := by
  induction l with
  | nil => simp
  | cons c rest ih =>
    rw [List.dropWhile_cons]
    by_cases h : p c
    · simp only [if_pos h, List.length_cons]
      omega
    · simp [h]

/-- Splitting off a macro span strictly shrinks the remaining template
(justifies termination of the expand_template loop). -/
def splitMacroSpan_after_len (s : PStr) : ∀ b m a : PStr,
    splitMacroSpan s = some (b, m, a) → a.length < s.length := by
  induction s with
  | nil => intro b m a h; simp [splitMacroSpan] at h
  | cons c rest ih =>
    intro b m a h
    rw [splitMacroSpan] at h
    by_cases hc : c = '{' ∧ '}' ∈ rest
    · rw [if_pos hc] at h
      simp only [Option.some.injEq, Prod.mk.injEq] at h
      obtain ⟨-, -, ha⟩ := h
      have h1 : (rest.dropWhile (fun d => d ≠ '}')).length ≤ rest.length :=
        dropWhile_length_le _ _
      have h2 : ((rest.dropWhile (fun d => d ≠ '}')).drop 1).length
          ≤ (rest.dropWhile (fun d => d ≠ '}')).length := by
        simp [List.length_drop]
      rw [← ha]
      simp only [List.length_cons]
      omega
    · rw [if_neg hc] at h
      rcases ho : splitMacroSpan rest with _ | ⟨b', m', a'⟩
      · rw [ho] at h
        simp at h
      · rw [ho] at h
        simp only [Option.map_some', Option.some.injEq, Prod.mk.injEq] at h
        obtain ⟨-, -, ha⟩ := h
        have := ih b' m' a' ho
        rw [← ha]
        simp only [List.length_cons]
        omega

/-- Python macro[1:-1] (src/hancho.py line 510): drop the first and the last
character. -/
def stripEnds (s : PStr) : PStr := (s.drop 1).dropLast

/-- A character allowed after the first position of a Python identifier. -/
def isIdentChar (c : Char) : Bool := c.isAlpha || c.isDigit || c = '_'

/-- Whether a string is a plain Python identifier. The expression evaluator of
this embedding covers the identifier fragment of the macro expression language
(spec 4.3 notes only a subset of Python expressions is required). -/
def isIdentStr : PStr → Bool
  | [] => false
  | c :: rest => (c.isAlpha || c = '_') && rest.all isIdentChar

/-- The string "{" + name + "}" — the macro reading field `name`. -/
def mkMacroStr (n : PStr) : PStr := '{' :: n ++ ['}']

mutual

/-- Model of hancho _flatten (src/hancho.py lines 71-74) on machine values. -/
def flattenV : MValue → List MValue
  | .list l => flattenVL l
  | v => [v]

/-- List clause of `flattenV`. -/
def flattenVL : List MValue → List MValue
  | [] => []
  | v :: rest => flattenV v ++ flattenVL rest

end

/-- Model of Python str() on the flattened leaves substituted into a template
(src/hancho.py line 465). Configs and callbacks print as an opaque repr,
modelled by their handle; the list clause is unreachable after flattening. -/
def pyStrV : MValue → PStr
  | .null => "None".toList
  | .bool true => "True".toList
  | .bool false => "False".toList
  | .int n => (toString n).toList
  | .str s => s
  | .list _ => "[list]".toList
  | .config r => ("Config@" ++ toString r).toList
  | .callback r => ("function@" ++ toString r).toList

/-- Model of the Python join of strings with single spaces. -/
def joinSpace : List PStr → PStr
  | [] => []
  | [x] => x
  | x :: rest => x ++ ' ' :: joinSpace rest

mutual

/-- Model of hancho expand (src/hancho.py lines 424-448); d is the value of
app.expand_depth on entry. Configs and callbacks are returned as-is, lists are
expanded elementwise, strings dispatch on the two regexes (pure macro before
template), ints and bools pass through, and None reaches the final
`raise ValueError("Don't know how to expand ...")` clause. -/
def expandD (d : Nat) (cfg : List (PStr × MValue)) (v : MValue) : Except PyError MValue :=
  match v with
  | .config r => .ok (.config r)
  | .list l =>
    match expandListD d cfg l with
    | .error e => .error e
    | .ok l' => .ok (.list l')
  | .str s =>
    if isMacroStr s then evalMacroD d cfg s
    else if hasMacroSpan s then
      match expandTemplateD d cfg s with
      | .error e => .error e
      | .ok r => .ok (.str r)
    else .ok (.str s)
  | .int n => .ok (.int n)
  | .bool b => .ok (.bool b)
  | .callback r => .ok (.callback r)
  | .null => .error (.valueError ("Dont know how to expand NoneType".toList))
termination_by (22 - d, 2, sizeOf v)
decreasing_by
all_goals
  first
  | (apply Prod.Lex.right; apply Prod.Lex.left; omega)
  | (apply Prod.Lex.right; apply Prod.Lex.right; simp; omega)
  | (apply Prod.Lex.right; apply Prod.Lex.right; simp)
  | (apply Prod.Lex.right; apply Prod.Lex.right
     have := splitMacroSpan_after_len _ _ _ _ hsp
     omega)
  | (apply Prod.Lex.left
     simp only [MAX_EXPAND_DEPTH] at hd
     omega)
  | (rcases Nat.lt_or_ge d 22 with hdd | hdd
     · apply Prod.Lex.left
       omega
     · have h22 : 22 - (d + 1) = 22 - d := by omega
       rw [h22]
       apply Prod.Lex.right
       apply Prod.Lex.right
       omega)

/-- Elementwise expansion of a list (the comprehension at src/hancho.py
line 436), propagating the first exception. -/
def expandListD (d : Nat) (cfg : List (PStr × MValue)) (l : List MValue) :
    Except PyError (List MValue) :=
  match l with
  | [] => .ok []
  | v :: rest =>
    match expandD d cfg v with
    | .error e => .error e
    | .ok v' =>
      match expandListD d cfg rest with
      | .error e => .error e
      | .ok rest' => .ok (v' :: rest')
termination_by (22 - d, 2, sizeOf l)
decreasing_by
all_goals
  first
  | (apply Prod.Lex.right; apply Prod.Lex.left; omega)
  | (apply Prod.Lex.right; apply Prod.Lex.right; simp; omega)
  | (apply Prod.Lex.right; apply Prod.Lex.right; simp)
  | (apply Prod.Lex.left
     simp only [MAX_EXPAND_DEPTH] at hd
     omega)

/-- Model of hancho eval_macro (src/hancho.py lines 496-521). `mac` is the full
braced macro string. On entry, app.expand_depth (> MAX_EXPAND_DEPTH) is checked
before the depth is incremented, and the RecursionError message carries the
macro. Otherwise the depth becomes d+1 and eval runs macro[1:-1] with the
config as scope; the embedding evaluates the identifier fragment of the
expression language: a bound identifier is read through the JIT Expander
(src/hancho.py lines 479-493), i.e. its field value is expanded at the
incremented depth; an unbound identifier raises (getattr → AttributeError);
anything that is not an identifier raises a SyntaxError from eval. -/
def evalMacroD (d : Nat) (cfg : List (PStr × MValue)) (mac : PStr) : Except PyError MValue :=
  if hd : d > MAX_EXPAND_DEPTH then .error (.recursionError mac)
  else
    let inner := stripEnds mac
    if isIdentStr inner then
      match lookupCfg cfg inner with
      | some v => expandD (d + 1) cfg v
      | none => .error (.attributeError inner)
    else .error (.syntaxError inner)
termination_by (22 - d, 1, 0)
decreasing_by
all_goals
  first
  | (apply Prod.Lex.right; apply Prod.Lex.left; omega)
  | (apply Prod.Lex.left
     simp only [MAX_EXPAND_DEPTH] at hd
     omega)

/-- Model of expand_template (src/hancho.py lines 451-477): the while-loop over
macro spans. expand_template increments the depth first, so each macro of the
template is evaluated by eval_macro at depth d+1; its result is flattened,
stringified and space-joined into the output. -/
def expandTemplateD (d : Nat) (cfg : List (PStr × MValue)) (s : PStr) :
    Except PyError PStr :=
  match hsp : splitMacroSpan s with
  | none => .ok s
  | some (before, mac, after) =>
    match evalMacroD (d + 1) cfg mac with
    | .error e => .error e
    | .ok v =>
      match expandTemplateD d cfg after with
      | .error e => .error e
      | .ok rest => .ok (before ++ joinSpace ((flattenV v).map pyStrV) ++ rest)
termination_by (22 - d, 1, s.length + 1)
decreasing_by
all_goals
  first
  | (apply Prod.Lex.right; apply Prod.Lex.right
     have := splitMacroSpan_after_len _ _ _ _ hsp
     omega)
  | (rcases Nat.lt_or_ge d 22 with hdd | hdd
     · apply Prod.Lex.left
       omega
     · have h22 : 22 - (d + 1) = 22 - d := by omega
       rw [h22]
       apply Prod.Lex.right
       apply Prod.Lex.right
       omega)

end

/-- A straight chain of fields in cfg: each name in the list is an identifier
bound to the macro reading the next name, and the final name is bound to the
integer k. -/
def IsChainTo (cfg : List (PStr × MValue)) : List PStr → Int → Prop
  | [], _ => False
  | [n], k => isIdentStr n = true ∧ lookupCfg cfg n = some (.int k)
  | n :: n' :: rest, k =>
    isIdentStr n = true ∧ lookupCfg cfg n = some (.str (mkMacroStr n'))
      ∧ IsChainTo cfg (n' :: rest) k

/-- Config with the two-field reference cycle a = "{b}", b = "{a}". -/
def cfgCyc : List (PStr × MValue) :=
  [("a".toList, .str (mkMacroStr "b".toList)),
   ("b".toList, .str (mkMacroStr "a".toList))]

/-- Config with the acyclic chain a = "{b}", b = 7. -/
def cfgChain : List (PStr × MValue) :=
  [("a".toList, .str (mkMacroStr "b".toList)), ("b".toList, .int 7)]

/-- Config binding "files" to a two-element list, for the C5 witness. -/
def cfgC5 : List (PStr × MValue) :=
  [("files".toList, .list [.str "a.c".toList, .str "b.c".toList])]

theorem flattenPL_map_str (l : List PStr) : flattenPL (l.map .str) = l := by
  induction l with
  | nil => rfl
  | cons x rest ih => simp [flattenPL, flattenP, ih]

theorem flattenP_collapseJoin (l : List PStr) : flattenP (collapseJoin l) = l := by
  match l with
  | [x] => rfl
  | [] => rfl
  | x :: y :: t =>
    show flattenP (.list ((x :: y :: t).map .str)) = x :: y :: t
    simp [flattenP, flattenPL, flattenPL_map_str]

theorem join_path_cart (args : List PathVal) (h : 2 ≤ args.length) :
    join_path args = collapseJoin (cartJoin (args.map flattenP)) := by
  induction args with
  | nil => simp at h
  | cons a rest ih =>
    match rest with
    | [] => simp at h
    | [b] =>
      show join2 a b = collapseJoin (cartJoin [flattenP a, flattenP b])
      simp [join2, cartJoin]
    | b :: c :: t =>
      have ih' := ih (by simp)
      show join2 a (join_path (b :: c :: t)) = _
      rw [ih']
      simp [join2, cartJoin, flattenP_collapseJoin]

/-- C6: the claim is false as stated in its one-argument case: _join_path with
a single scalar argument returns `list(args)`, a one-element list holding the
argument, not the collapsed scalar. Here no flattening or collapsing happens
at all. -/
theorem C6_counterexample :
    join_path [.str ['a']] = .list [.str ['a']] ∧
      join_path [.str ['a']] ≠ .str ['a'] := by
  refine ⟨rfl, ?_⟩
  intro h
  rw [show join_path [.str ['a']] = .list [.str ['a']] from rfl] at h
  exact PathVal.noConfusion h

/-- C6 (amended): join_path with zero arguments returns the scalar empty
string; with exactly one argument it returns the singleton list holding the
argument unchanged (no flattening, no collapse); with two or more arguments it
returns the Cartesian product of the per-argument flattened sequences joined
pairwise with the path separator (folded from the right), collapsed to a
single scalar exactly when the product has exactly one element. -/
theorem C6_join_path_cases :
    join_path [] = .str []
    ∧ (∀ v : PathVal, join_path [v] = .list [v])
    ∧ (∀ args : List PathVal, 2 ≤ args.length →
        join_path args = collapseJoin (cartJoin (args.map flattenP))) :=
  ⟨rfl, fun _ => rfl, join_path_cart⟩

/-- C6 witness: concrete instances of all three cases; the two-or-more-argument
case with ["a", ["b", "c"]] produces the two-element Cartesian product (no
collapse), and with ["a", "b"] the single-element product collapses to a
scalar. -/
theorem C6_join_path_cases_witness :
    join_path [] = .str []
    ∧ join_path [.str ['a']] = .list [.str ['a']]
    ∧ join_path [.str ['a'], .list [.str ['b'], .str ['c']]]
        = collapseJoin (cartJoin [[['a']], [['b'], ['c']]])
    ∧ join_path [.str ['a'], .str ['b']] = collapseJoin (cartJoin [[['a']], [['b']]]) := by
  refine ⟨C6_join_path_cases.1, C6_join_path_cases.2.1 (.str ['a']), ?_, ?_⟩
  · exact C6_join_path_cases.2.2 [.str ['a'], .list [.str ['b'], .str ['c']]] (by simp)
  · exact C6_join_path_cases.2.2 [.str ['a'], .str ['b']] (by simp)

theorem isPrefixOf_append_self (l r : PStr) : l.isPrefixOf (l ++ r) = true := by
  induction l with
  | nil => simp [List.isPrefixOf]
  | cons a as ih => simp [List.isPrefixOf, ih]

theorem drop_length_append (l r : PStr) : (l ++ r).drop l.length = r := by
  induction l with
  | nil => simp
  | cons a as ih => simp [ih]

theorem pyStripPre_append (pre rest : PStr) : pyStripPre (pre ++ rest) pre = rest := by
  simp [pyStripPre, isPrefixOf_append_self, drop_length_append]

theorem rel_path_pyPathJoin (base p : PStr) (hp : isAbsPath p = false)
    (hb : endsWithSlash base = false) : rel_path (pyPathJoin base p) base = p := by
  match base with
  | [] =>
    have hj : pyPathJoin [] p = p := by simp [pyPathJoin, hp]
    rw [hj, rel_path]
    match p with
    | [] => simp
    | c :: t =>
      have hc : ¬('/' = c) := by
        intro hcc
        rw [← hcc] at hp
        simp [isAbsPath] at hp
      simp only [pyStripPre, if_neg (by simp : ¬(c :: t = []))]
      have hpre : (([] : PStr) ++ ['/']).isPrefixOf (c :: t) = false := by
        simp [List.isPrefixOf, hc]
      simp [hpre, hc]
  | d :: bs =>
    have hj : pyPathJoin (d :: bs) p = (d :: bs) ++ '/' :: p := by
      simp [pyPathJoin, hp, hb]
    rw [hj, rel_path]
    have hne : (d :: bs) ++ '/' :: p ≠ d :: bs := by
      intro hh
      have := congrArg List.length hh
      simp at this
    rw [if_neg hne]
    have hassoc : (d :: bs) ++ '/' :: p = ((d :: bs) ++ ['/']) ++ p := by simp
    rw [hassoc, pyStripPre_append]

/-- C9: the claim is false as stated when the base path ends with a slash: with
base "b/" and the relative, dot-dot-free path "x", join_path gives "b/x" but
rel_path cannot strip the prefix "b//" and returns "b/x", not "x". -/
theorem C9_counterexample :
    isAbsPath ['x'] = false
    ∧ hasDotDot ['x'] = false
    ∧ relPathVal (join_path [.str ['b', '/'], .str ['x']]) ['b', '/']
        = .str ['b', '/', 'x']
    ∧ (['b', '/', 'x'] : PStr) ≠ ['x'] := by
  refine ⟨rfl, by decide, rfl, by decide⟩

/-- C9 (amended): for every base path not ending with a slash and every path p
that is already relative (does not start with a slash) and contains no dot-dot
segment, rel_path(join_path(base, p), base) = p. -/
theorem C9_rel_join_roundtrip (base p : PStr) (hp : isAbsPath p = false)
    (hdd : hasDotDot p = false) (hb : endsWithSlash base = false) :
    relPathVal (join_path [.str base, .str p]) base = .str p := by
  have hjp : join_path [.str base, .str p] = .str (pyPathJoin base p) := rfl
  rw [hjp]
  show PathVal.str (rel_path (pyPathJoin base p) base) = .str p
  rw [rel_path_pyPathJoin base p hp hb]

/-- C9 witness: base "/r", p "x/y". -/
theorem C9_rel_join_roundtrip_witness :
    isAbsPath ['x', '/', 'y'] = false
    ∧ hasDotDot ['x', '/', 'y'] = false
    ∧ endsWithSlash ['/', 'r'] = false
    ∧ relPathVal (join_path [.str ['/', 'r'], .str ['x', '/', 'y']]) ['/', 'r']
        = .str ['x', '/', 'y'] :=
  ⟨by decide, by decide, by decide,
    C9_rel_join_roundtrip ['/', 'r'] ['x', '/', 'y'] (by decide) (by decide) (by decide)⟩

theorem registerBuildFiles_ok_iff (seen files : List PStr) :
    (registerBuildFiles seen files).1 = .ok ()
      ↔ (files.Nodup ∧ ∀ f ∈ files, f ∉ seen) := by
  induction files generalizing seen with
  | nil => simp [registerBuildFiles]
  | cons f rest ih =>
    by_cases hf : f ∈ seen
    · simp only [registerBuildFiles, if_pos hf]
      constructor
      · intro h
        exact absurd h (by simp)
      · intro ⟨_, hall⟩
        exact absurd (hall f (by simp)) (by simp [hf])
    · simp only [registerBuildFiles, if_neg hf, ih (f :: seen)]
      constructor
      · intro ⟨hnd, hall⟩
        refine ⟨List.nodup_cons.mpr ⟨?_, hnd⟩, ?_⟩
        · intro hfr
          exact absurd (by simp : f ∈ f :: seen) (hall f hfr)
        · intro g hg
          match List.mem_cons.mp hg with
          | .inl he => exact he ▸ hf
          | .inr hr => exact fun hgs => (hall g hr) (List.mem_cons.mpr (.inr hgs))
      · intro ⟨hnd, hall⟩
        obtain ⟨hfr, hnd'⟩ := List.nodup_cons.mp hnd
        refine ⟨hnd', ?_⟩
        intro g hg hmem
        match List.mem_cons.mp hmem with
        | .inl he => exact hfr (he ▸ hg)
        | .inr hs => exact (hall g (List.mem_cons.mpr (.inr hg))) hs

theorem registerBuildFiles_snd_nodup (seen files : List PStr) (h : seen.Nodup) :
    ((registerBuildFiles seen files).2).Nodup := by
  induction files generalizing seen with
  | nil => simpa [registerBuildFiles]
  | cons f rest ih =>
    by_cases hf : f ∈ seen
    · simpa [registerBuildFiles, hf]
    · simp only [registerBuildFiles, if_neg hf]
      exact ih (f :: seen) (List.nodup_cons.mpr ⟨hf, h⟩)

theorem processTaskOutputs_nodup (tasks : List (List PStr)) (seen : List PStr)
    (h : seen.Nodup) : (processTaskOutputs seen tasks).Nodup := by
  induction tasks generalizing seen with
  | nil => simpa [processTaskOutputs]
  | cons t ts ih =>
    simp only [processTaskOutputs]
    exact ih _ (registerBuildFiles_snd_nodup seen t h)

/-- C3: the claim is false as stated — the registration loop raises the
duplicate-output error for a task whose own abs_build_files repeats a path,
even though no earlier task registered anything (all_build_files is empty). -/
theorem C3_counterexample :
    (∃ e, (registerBuildFiles [] [['a'], ['a']]).1 = .error e)
    ∧ (∀ p : PStr, p ∉ ([] : List PStr)) :=
  ⟨⟨_, rfl⟩, by simp⟩

/-- C3 (amended): task_init's registration raises the duplicate-output error
exactly when one of the task's abs_build_files was already registered — by an
earlier task or earlier in the same task's own list (equivalently, it succeeds
iff the task's list is duplicate-free and disjoint from the registered set);
the registered set stays duplicate-free, so every path in all_build_files was
registered by exactly one task_init iteration. -/
theorem C3_register_outputs :
    (∀ seen files : List PStr,
        (registerBuildFiles seen files).1 = .ok ()
          ↔ (files.Nodup ∧ ∀ f ∈ files, f ∉ seen))
    ∧ (∀ seen files : List PStr, seen.Nodup → ((registerBuildFiles seen files).2).Nodup)
    ∧ (∀ tasks : List (List PStr), (processTaskOutputs [] tasks).Nodup) :=
  ⟨registerBuildFiles_ok_iff, registerBuildFiles_snd_nodup,
    fun tasks => processTaskOutputs_nodup tasks [] List.nodup_nil⟩

/-- C3 witness: a fresh task with distinct outputs disjoint from the registered
set succeeds; registration keeps the set duplicate-free; a three-task sequence
(the second duplicating the first) still yields a duplicate-free set. -/
theorem C3_register_outputs_witness :
    (registerBuildFiles [['a']] [['b'], ['c']]).1 = .ok ()
    ∧ ((registerBuildFiles [['a']] [['b'], ['c']]).2).Nodup
    ∧ (processTaskOutputs [] [[['a']], [['a'], ['b']], [['c']]]).Nodup :=
  ⟨(C3_register_outputs.1 [['a']] [['b'], ['c']]).mpr (by decide),
    C3_register_outputs.2.1 [['a']] [['b'], ['c']] (by decide),
    C3_register_outputs.2.2 [[['a']], [['a'], ['b']], [['c']]]⟩

/-- C7: the claim is false as stated on the path where job acquisition itself
fails: with a pool of 1, a task requesting 2 jobs acquires nothing (acquire_jobs
raises first), yet the finally clause releases 2, so jobs_available goes from 1
to 3 instead of returning to its prior value. -/
theorem C7_counterexample :
    (∃ e, run_commands_jobs 1 2 1 false = .err e 3) ∧ (3 : Nat) ≠ 1 :=
  ⟨⟨_, rfl⟩, by decide⟩

/-- C7 (amended): on every path where acquisition succeeds (job_count within the
pool size and enough jobs available) the released count equals the acquired
count and jobs_available returns to its prior value, on success and on command
failure alike; but when acquisition itself fails (job_count > jobs), zero jobs
were acquired while job_count are still released, so jobs_available ends at its
prior value plus job_count. -/
theorem C7_jobs_balance :
    (∀ cfgJobs count avail : Nat, count ≤ cfgJobs → count ≤ avail →
        run_commands_jobs cfgJobs count avail false = .ok avail)
    ∧ (∀ cfgJobs count avail : Nat, count ≤ cfgJobs → count ≤ avail →
        ∃ e, run_commands_jobs cfgJobs count avail true = .err e avail)
    ∧ (∀ (cfgJobs count avail : Nat) (cmdFails : Bool), cfgJobs < count →
        ∃ e, run_commands_jobs cfgJobs count avail cmdFails = .err e (avail + count)) := by
  refine ⟨?_, ?_, ?_⟩
  · intro c n a h1 h2
    simp only [run_commands_jobs, if_neg (by omega : ¬n > c), if_neg (by omega : ¬a < n),
      if_neg (by simp : ¬false = true)]
    rw [Nat.sub_add_cancel h2]
  · intro c n a h1 h2
    refine ⟨.valueError ("Command exited with nonzero return code".toList), ?_⟩
    simp only [run_commands_jobs, if_neg (by omega : ¬n > c), if_neg (by omega : ¬a < n)]
    rw [Nat.sub_add_cancel h2]
    simp
  · intro c n a f h
    refine ⟨.valueError (("Nedd " ++ toString n ++ " jobs, but pool is "
      ++ toString c ++ ".").toList), ?_⟩
    simp only [run_commands_jobs, if_pos (by omega : n > c)]

/-- C7 witness: pool 2; one job acquired and released on success and on command
failure (jobs_available back to 2); a request of 3 inflates the pool to 5. -/
theorem C7_jobs_balance_witness :
    run_commands_jobs 2 1 2 false = .ok 2
    ∧ (∃ e, run_commands_jobs 2 1 2 true = .err e 2)
    ∧ (∃ e, run_commands_jobs 2 3 2 false = .err e 5) :=
  ⟨C7_jobs_balance.1 2 1 2 (by decide) (by decide),
    C7_jobs_balance.2.1 2 1 2 (by decide) (by decide),
    C7_jobs_balance.2.2 2 3 2 false (by decide)⟩

/-- C10: constructing a Task whose merged config has command = None raises the
missing-command ValueError before tasks_total is incremented and before the
task is appended to pending_tasks: the app state (pending queue and every
counter) is returned exactly unchanged. -/
theorem C10_missing_command (st : AppState) (root_path base_path : PStr)
    (args : List (List (PStr × MValue))) (kwargs : List (PStr × MValue))
    (h : commandIsNone
        (lookupCfg (taskMergedConfig root_path base_path args kwargs) ("command".toList))
      = true) :
    taskConstruct st root_path base_path args kwargs
      = (.error (.valueError ("Task has no command".toList)), st) := by
  simp only [taskConstruct, h, if_pos]

/-- C10 witness: Task() with no arguments at all inherits command = None from
the defaults and leaves a zeroed app state untouched. -/
theorem C10_missing_command_witness :
    taskConstruct ⟨0, 0, 0, 0, 0, 0, []⟩ [] [] [] []
      = (.error (.valueError ("Task has no command".toList)), ⟨0, 0, 0, 0, 0, 0, []⟩) :=
  C10_missing_command ⟨0, 0, 0, 0, 0, 0, []⟩ [] [] [] [] rfl

/-- C1: the claim is right and the code is wrong. A downstream task whose
dependency was cancelled does resolve to the Cancelled sentinel, but it is
counted in tasks_fail, not tasks_cancel: the `except BaseException` clause at
line 609 precedes `except asyncio.CancelledError` at line 620 and matches
every exception, so the cancel clause is unreachable and tasks_cancel is never
incremented. In the spec's fan-out scenario (one failing task, three
dependents) the counters end at tasks_fail = 4, tasks_cancel = 0 instead of
the claimed 1 and 3. -/
theorem C1_cancellation_counted_as_fail :
    firstHandler runAsyncHandlers .cancelledError = some .failHandler
    ∧ (∀ st, (run_async_counters st (some .cancelledError)).2 = .cancelledSentinel)
    ∧ (∀ st, ((run_async_counters st (some .cancelledError)).1).tasks_cancel
        = st.tasks_cancel)
    ∧ (∀ st, ((run_async_counters st (some .cancelledError)).1).tasks_fail
        = st.tasks_fail + 1)
    ∧ (cancellationFanout 3).tasks_fail = 4
    ∧ (cancellationFanout 3).tasks_cancel = 0 :=
  ⟨rfl, fun _ => rfl, fun _ => rfl, fun _ => rfl, rfl, rfl⟩

theorem pathExists_iff (fs : FS) (f : PStr) :
    pathExists fs f = true ↔ ∃ t, fs.mtime f = some t := by
  simp [pathExists, Option.isSome_iff_exists]

theorem mtimesOf_ok (fs : FS) (files : List PStr)
    (hex : ∀ f ∈ files, pathExists fs f = true) :
    mtimesOf fs files = .ok (files.map (fun f => (fs.mtime f).getD 0)) := by
  induction files with
  | nil => rfl
  | cons f rest ih =>
    obtain ⟨t, ht⟩ := (pathExists_iff fs f).mp (hex f (by simp))
    have ihh := ih (fun g hg => hex g (by simp [hg]))
    simp [mtimesOf, pyMtime, ht, ihh]

theorem firstStale_none (fs : FS) (m : Nat) (files : List PStr)
    (hex : ∀ f ∈ files, pathExists fs f = true)
    (hns : ∀ f ∈ files, staleCheck fs m f = false) :
    firstStale fs m files = .ok none := by
  induction files with
  | nil => rfl
  | cons f rest ih =>
    obtain ⟨t, ht⟩ := (pathExists_iff fs f).mp (hex f (by simp))
    have hmt : ¬(m ≤ t) := by simpa [staleCheck, ht] using hns f (by simp)
    simp only [firstStale, pyMtime, ht, if_neg hmt]
    exact ih (fun g hg => hex g (by simp [hg])) (fun g hg => hns g (by simp [hg]))

theorem firstStale_some (fs : FS) (m : Nat) (files : List PStr)
    (hex : ∀ f ∈ files, pathExists fs f = true)
    (hst : ∃ f ∈ files, staleCheck fs m f = true) :
    ∃ g, firstStale fs m files = .ok (some g) := by
  induction files with
  | nil => simp at hst
  | cons f rest ih =>
    obtain ⟨t, ht⟩ := (pathExists_iff fs f).mp (hex f (by simp))
    by_cases hmt : m ≤ t
    · exact ⟨f, by simp [firstStale, pyMtime, ht, hmt]⟩
    · have hst' : ∃ g ∈ rest, staleCheck fs m g = true := by
        obtain ⟨g, hg, hgs⟩ := hst
        rcases List.mem_cons.mp hg with he | hr
        · exfalso
          rw [he] at hgs
          simp [staleCheck, ht] at hgs
          exact hmt hgs
        · exact ⟨g, hr, hgs⟩
      obtain ⟨g, hfs⟩ := ih (fun g hg => hex g (by simp [hg])) hst'
      exact ⟨g, by simp [firstStale, pyMtime, ht, hmt, hfs]⟩

/-- C2: for a task with nonempty source and build file lists that all exist
(command files exist too — task_init resolved them with strict=True at
src/hancho.py line 657, so any task reaching needs_rerun satisfies this), if
some source or command file has mtime ≥ min_out — equality included — then
needs_rerun returns a non-empty reason. The force branch returns a non-empty
reason regardless. -/
theorem C2_needs_rerun_stale (fs : FS) (loaded_modules : List PStr) (act : TaskAction)
    (force : Bool)
    (hs : act.abs_source_files ≠ [])
    (hb : act.abs_build_files ≠ [])
    (hse : ∀ f ∈ act.abs_source_files, pathExists fs f = true)
    (hbe : ∀ f ∈ act.abs_build_files, pathExists fs f = true)
    (hce : ∀ f ∈ act.abs_command_files, pathExists fs f = true)
    (hstale : ∃ f ∈ act.abs_source_files ++ act.abs_command_files,
        staleCheck fs (buildMinOut fs act.abs_build_files) f = true) :
    ∃ r, needs_rerun fs loaded_modules act force = .ok r ∧ r ≠ [] := by
  cases force with
  | true => exact ⟨_, rfl, by decide⟩
  | false =>
    have hpre : ("Rebuilding because changed ").toList ≠ [] := by decide
    have hfind : act.abs_build_files.find? (fun f => !pathExists fs f) = none := by
      rw [List.find?_eq_none]
      intro f hf
      simp [hbe f hf]
    have hmapM := mtimesOf_ok fs act.abs_build_files hbe
    by_cases hsrc : ∃ f ∈ act.abs_source_files,
        staleCheck fs (buildMinOut fs act.abs_build_files) f = true
    · obtain ⟨g, hg⟩ := firstStale_some fs _ act.abs_source_files hse hsrc
      refine ⟨("Rebuilding because changed ").toList ++ g, ?_,
        fun hh => hpre (List.append_eq_nil.mp hh).1⟩
      simp only [needs_rerun, if_neg (by simp : ¬(false = true)), if_neg hs, if_neg hb,
        hfind, hmapM]
      rw [show minList (act.abs_build_files.map (fun f => (fs.mtime f).getD 0))
        = buildMinOut fs act.abs_build_files from rfl]
      rw [hg]
    · have hnsrc : ∀ f ∈ act.abs_source_files,
          staleCheck fs (buildMinOut fs act.abs_build_files) f = false := by
        intro f hf
        rcases Bool.eq_false_or_eq_true (staleCheck fs _ f) with h | h
        · exact absurd ⟨f, hf, h⟩ hsrc
        · exact h
      have hnone := firstStale_none fs _ act.abs_source_files hse hnsrc
      have hcmd : ∃ f ∈ act.abs_command_files,
          staleCheck fs (buildMinOut fs act.abs_build_files) f = true := by
        obtain ⟨f, hf, hfs⟩ := hstale
        rcases List.mem_append.mp hf with h | h
        · exact absurd ⟨f, h, hfs⟩ hsrc
        · exact ⟨f, h, hfs⟩
      obtain ⟨g, hg⟩ := firstStale_some fs _ act.abs_command_files hce hcmd
      refine ⟨("Rebuilding because changed ").toList ++ g, ?_,
        fun hh => hpre (List.append_eq_nil.mp hh).1⟩
      simp only [needs_rerun, if_neg (by simp : ¬(false = true)), if_neg hs, if_neg hb,
        hfind, hmapM]
      rw [show minList (act.abs_build_files.map (fun f => (fs.mtime f).getD 0))
        = buildMinOut fs act.abs_build_files from rfl]
      rw [hnone, hg]

/-- C2 witness: source mtime equal to the build mtime (5 = 5) already yields a
non-empty rebuild reason. -/
theorem C2_needs_rerun_stale_witness :
    ∃ r, needs_rerun fsC2 [] actC2 false = .ok r ∧ r ≠ [] :=
  C2_needs_rerun_stale fsC2 [] actC2 false (by decide) (by decide)
    (by decide) (by decide) (by decide) (by decide)

/-- C8: the claim is right and the code is wrong. With an existing depfile and
depformat "foo" (neither gcc nor msvc), needs_rerun raises — but not the
intended ValueError naming the bad depformat: the raise statement's f-string
(src/hancho.py line 726) references the unbound name `depformat`, so Python
raises NameError (name depformat is not defined), an error that never mentions
the value "foo". -/
theorem C8_invalid_depformat_nameerror :
    actC8.depformat ≠ "gcc".toList
    ∧ actC8.depformat ≠ "msvc".toList
    ∧ pathExists fsC8 ("/r/out.d".toList) = true
    ∧ needs_rerun fsC8 [] actC8 false
        = .error (.nameErrorUndefined ("depformat".toList)) :=
  ⟨by decide, by decide, by decide, by decide⟩

theorem isIdentStr_chars (n : PStr) (h : isIdentStr n = true) :
    ∀ c ∈ n, isIdentChar c = true := by
  match n with
  | [] => intro c hc; simp at hc
  | c0 :: rest =>
    simp only [isIdentStr, Bool.and_eq_true] at h
    intro c hc
    rcases List.mem_cons.mp hc with he | hr
    · subst he
      rcases Bool.or_eq_true .. |>.mp h.1 with ha | hu
      · simp [isIdentChar, ha]
      · simp [isIdentChar, hu]
    · exact List.all_eq_true.mp h.2 c hr

theorem midNoBrace_append (n : PStr) (h : ∀ c ∈ n, isIdentChar c = true) :
    midNoBrace (n ++ ['}']) = true := by
  induction n with
  | nil => rfl
  | cons c rest ih =>
    have hc : ¬(c = '}') := by
      intro hcc
      subst hcc
      exact absurd (h '}' (by simp)) (by decide)
    rw [show (c :: rest) ++ ['}'] = c :: (rest ++ ['}']) from rfl]
    rw [midNoBrace, if_neg hc]
    exact ih (fun d hd => h d (by simp [hd]))

theorem isMacroStr_mkMacroStr (n : PStr) (h : isIdentStr n = true) :
    isMacroStr (mkMacroStr n) = true := by
  rw [mkMacroStr, isMacroStr.eq_def]
  simp
  exact midNoBrace_append n (isIdentStr_chars n h)

theorem stripEnds_mkMacroStr (n : PStr) : stripEnds (mkMacroStr n) = n := by
  rw [mkMacroStr, stripEnds]
  rw [show ('{' :: n ++ ['}']).drop 1 = n ++ ['}'] from rfl]
  exact List.dropLast_concat

theorem expandD_macro_str (d : Nat) (cfg : List (PStr × MValue)) (s : PStr)
    (h : isMacroStr s = true) : expandD d cfg (.str s) = evalMacroD d cfg s := by
  rw [expandD]
  simp [h]

theorem evalMacroD_ident (d : Nat) (cfg : List (PStr × MValue)) (name : PStr)
    (v : MValue) (hd : ¬(d > MAX_EXPAND_DEPTH)) (hident : isIdentStr name = true)
    (hlk : lookupCfg cfg name = some v) :
    evalMacroD d cfg (mkMacroStr name) = expandD (d + 1) cfg v := by
  rw [evalMacroD]
  simp [hd, stripEnds_mkMacroStr, hident, hlk]

theorem evalMacroD_syntaxErr (d : Nat) (cfg : List (PStr × MValue)) (mac : PStr)
    (hd : ¬(d > MAX_EXPAND_DEPTH)) (h : isIdentStr (stripEnds mac) = false) :
    evalMacroD d cfg mac = .error (.syntaxError (stripEnds mac)) := by
  rw [evalMacroD]
  simp [hd, h]

theorem expand_cyclic (cfg : List (PStr × MValue)) (S : List PStr)
    (hS : ∀ x ∈ S, isIdentStr x = true
        ∧ ∃ y ∈ S, lookupCfg cfg x = some (.str (mkMacroStr y))) :
    ∀ (fuel d : Nat) (n : PStr), 21 - d ≤ fuel → n ∈ S →
      ∃ m, expandD d cfg (.str (mkMacroStr n)) = .error (.recursionError m) := by
  intro fuel
  induction fuel with
  | zero =>
    intro d n hf hn
    obtain ⟨hident, -⟩ := hS n hn
    have hd : d > MAX_EXPAND_DEPTH := by
      simp only [MAX_EXPAND_DEPTH]
      omega
    refine ⟨mkMacroStr n, ?_⟩
    rw [expandD_macro_str d cfg _ (isMacroStr_mkMacroStr n hident)]
    rw [evalMacroD]
    simp [hd]
  | succ k ih =>
    intro d n hf hn
    obtain ⟨hident, y, hy, hlk⟩ := hS n hn
    by_cases hd : d > MAX_EXPAND_DEPTH
    · refine ⟨mkMacroStr n, ?_⟩
      rw [expandD_macro_str d cfg _ (isMacroStr_mkMacroStr n hident)]
      rw [evalMacroD]
      simp [hd]
    · have hdle : d ≤ 20 := by
        simp only [MAX_EXPAND_DEPTH] at hd
        omega
      obtain ⟨m, hm⟩ := ih (d + 1) y (by omega) hy
      refine ⟨m, ?_⟩
      rw [expandD_macro_str d cfg _ (isMacroStr_mkMacroStr n hident)]
      rw [evalMacroD_ident d cfg n _ hd hident hlk]
      exact hm

theorem expand_chain (cfg : List (PStr × MValue)) (k : Int) :
    ∀ (ns : List PStr) (d : Nat), IsChainTo cfg ns k →
      d + ns.length ≤ MAX_EXPAND_DEPTH + 1 →
      ∀ n0, ns.head? = some n0 → expandD d cfg (.str (mkMacroStr n0)) = .ok (.int k) := by
  intro ns
  induction ns with
  | nil =>
    intro d hch
    exact absurd hch (by simp [IsChainTo])
  | cons n rest ih =>
    intro d hch hd n0 hh
    simp only [List.head?_cons, Option.some.injEq] at hh
    subst hh
    rcases rest with _ | ⟨n', rest'⟩
    · obtain ⟨hident, hlk⟩ := hch
      have hdn : ¬(d > MAX_EXPAND_DEPTH) := by
        simp only [List.length_cons, List.length_nil] at hd
        omega
      rw [expandD_macro_str d cfg _ (isMacroStr_mkMacroStr n hident)]
      rw [evalMacroD_ident d cfg n _ hdn hident hlk]
      rw [expandD]
    · obtain ⟨hident, hlk, hch'⟩ := hch
      have hdn : ¬(d > MAX_EXPAND_DEPTH) := by
        simp only [List.length_cons] at hd
        omega
      rw [expandD_macro_str d cfg _ (isMacroStr_mkMacroStr n hident)]
      rw [evalMacroD_ident d cfg n _ hdn hident hlk]
      exact ih (d + 1) hch' (by simp only [List.length_cons] at hd ⊢; omega) n' (by simp)

/-- C4: the expansion engine carries a depth counter on the app state (modelled
by the explicit depth argument d); eval_macro raises RecursionError as soon as
the depth on entry exceeds MAX_EXPAND_DEPTH, which is 20; expanding any cyclic
chain of macro fields therefore terminates with RecursionError instead of
diverging; and any acyclic (straight) chain short enough to fit in the depth
budget expands successfully, so expansion of cycle-free values completes
within MAX_EXPAND_DEPTH recursion levels. -/
theorem C4_expansion_depth_guard :
    MAX_EXPAND_DEPTH = 20
    ∧ (∀ (d : Nat) (cfg : List (PStr × MValue)) (mac : PStr), d > MAX_EXPAND_DEPTH →
        evalMacroD d cfg mac = .error (.recursionError mac))
    ∧ (∀ (cfg : List (PStr × MValue)) (S : List PStr) (n : PStr) (d : Nat),
        (∀ x ∈ S, isIdentStr x = true
            ∧ ∃ y ∈ S, lookupCfg cfg x = some (.str (mkMacroStr y))) →
        n ∈ S →
        ∃ m, expandD d cfg (.str (mkMacroStr n)) = .error (.recursionError m))
    ∧ (∀ (cfg : List (PStr × MValue)) (ns : List PStr) (k : Int) (d : Nat) (n0 : PStr),
        IsChainTo cfg ns k → d + ns.length ≤ MAX_EXPAND_DEPTH + 1 →
        ns.head? = some n0 →
        expandD d cfg (.str (mkMacroStr n0)) = .ok (.int k)) := by
  refine ⟨rfl, ?_, ?_, ?_⟩
  · intro d cfg mac h
    rw [evalMacroD]
    simp [h]
  · intro cfg S n d hS hn
    exact expand_cyclic cfg S hS (21 - d) d n (le_refl _) hn
  · intro cfg ns k d n0 hch hd hh
    exact expand_chain cfg k ns d hch hd n0 hh

/-- C4 witness: the guard fires at depth 21; the two-field cycle a = "{b}",
b = "{a}" expands to RecursionError from depth 0; the acyclic chain a = "{b}",
b = 7 expands to 7. -/
theorem C4_expansion_depth_guard_witness :
    (∃ mac : PStr, evalMacroD 21 cfgCyc (mkMacroStr ("a".toList))
        = .error (.recursionError mac))
    ∧ (∃ m : PStr, expandD 0 cfgCyc (.str (mkMacroStr ("a".toList)))
        = .error (.recursionError m))
    ∧ expandD 0 cfgChain (.str (mkMacroStr ("a".toList))) = .ok (.int 7) := by
  refine ⟨⟨mkMacroStr ("a".toList),
    C4_expansion_depth_guard.2.1 21 cfgCyc _ (by decide)⟩, ?_, ?_⟩
  · refine C4_expansion_depth_guard.2.2.1 cfgCyc ["a".toList, "b".toList] ("a".toList) 0
      ?_ (by decide)
    intro x hx
    rcases List.mem_cons.mp hx with h | h
    · subst h
      exact ⟨by decide, "b".toList, by decide, rfl⟩
    · rcases List.mem_cons.mp h with h2 | h2
      · subst h2
        exact ⟨by decide, "a".toList, by decide, rfl⟩
      · simp at h2
  · refine C4_expansion_depth_guard.2.2.2 cfgChain ["a".toList, "b".toList] 7 0
      ("a".toList) ?_ (by decide) rfl
    simp only [IsChainTo]
    exact ⟨by decide, rfl, by decide, rfl⟩

/-- C5 (amended): for every string of the exact pure-macro form "{name}" — a
full match of the regex, here with the inner expression an identifier bound in
the config — expand evaluates the identifier against the config as scope and
returns the field's expanded value itself, type preserved, not stringified
(the result is whatever expanding the bound value at the incremented depth
yields: list, scalar, config, ...). Strings that match the regex only by
virtue of a trailing newline are excluded: on those the code mis-slices the
expression and raises instead (see the counterexample). -/
theorem C5_pure_macro_preserves_type (cfg : List (PStr × MValue)) (name : PStr)
    (v : MValue) (d : Nat) (hident : isIdentStr name = true)
    (hlk : lookupCfg cfg name = some v) (hd : d ≤ MAX_EXPAND_DEPTH) :
    expandD d cfg (.str (mkMacroStr name)) = expandD (d + 1) cfg v := by
  rw [expandD_macro_str d cfg _ (isMacroStr_mkMacroStr name hident)]
  exact evalMacroD_ident d cfg name v (by omega) hident hlk

/-- C5: the claim is false as stated for the string "{a}\n": Python re search
of the anchored macro regex accepts it (the dollar matches before a trailing
newline), so expand treats it as a pure macro, but eval_macro slices
macro[1:-1] — dropping the newline, not the closing brace — and evaluates
"a}", which raises a SyntaxError instead of returning the bound value of a
with its type preserved. -/
theorem C5_counterexample :
    isMacroStr ('{' :: 'a' :: '}' :: '\n' :: []) = true
    ∧ lookupCfg [("a".toList, .int 7)] ("a".toList) = some (.int 7)
    ∧ expandD 0 [("a".toList, .int 7)] (.str ('{' :: 'a' :: '}' :: '\n' :: []))
        = .error (.syntaxError ('a' :: '}' :: [])) := by
  refine ⟨by decide, rfl, ?_⟩
  rw [expandD_macro_str 0 _ _ (by decide)]
  rw [evalMacroD_syntaxErr 0 _ _ (by decide) (by decide)]
  rfl

/-- C5 witness: expanding the pure macro "{files}" returns the expansion of
the bound list value — a list, not a string. -/
theorem C5_pure_macro_preserves_type_witness :
    expandD 0 cfgC5 (.str (mkMacroStr ("files".toList)))
      = expandD 1 cfgC5 (.list [.str "a.c".toList, .str "b.c".toList]) :=
  C5_pure_macro_preserves_type cfgC5 ("files".toList) _ 0 (by decide) rfl (by decide)
